import Mathlib

/-!
Shallow embedding of the `mqttcmdscript` parser and interpreter
(`src/mqttcmdscript.py`, `src/filesrw.py`, `src/constants.py`).

Python strings are modelled as `List Char` (`PyStr`).  Timestamps
(Python `time.time()` floats, used only with integer arithmetic and
rational division in the source) are modelled as `ℚ`.

Fidelity notes, referenced by the definitions below:
* `pyInt` models CPython `int(s, 10)` on an optional sign followed by
  decimal digits.  CPython additionally accepts surrounding whitespace
  and underscore digit separators; tokens produced by the script
  tokenizer never contain whitespace and no theorem below depends on an
  underscore-bearing token.
* A checked script line consisting solely of whitespace makes the
  source raise `IndexError` at `line.split()[0]`; here `headD []` is
  used instead, and every general theorem carries a hypothesis keeping
  such lines out (concrete inputs below never contain one).
* The step-compiler pass of the source mutates the shared `Command`
  objects (turning `args[0]` into an `int` for `PUB`/`DELAY*` and
  re-packing `PUB` arguments); those mutated objects are aliased in
  `config.commands`.  The model keeps `commands` immutable and no
  theorem below inspects the `args` of a `PUB`/`DELAY*` command after
  the step pass ran over it.
-/

namespace Mqttcmdscript

abbrev PyStr := List Char

/-- `constants.py`, `CONST.CMDSCRIPT_COMMANDS`. -/
def CMDSCRIPT_COMMANDS : List PyStr :=
  ["CFG_CLIENT_ID", "CFG_CLEAN_SESSION", "CFG_KEEPALIVE", "CFG_USER",
   "CFG_USE_TLS", "CFG_TLS_CERT", "CFG_PUB_EACH", "CONNECT",
   "DISCONNECT", "DELAY", "DELAY_MS", "DELAY_H", "PUB", "SUB"
  ].map String.toList

/-- `constants.py`, `CONST.CMDSCRIPT_ARGS_YES_NO`. -/
def CMDSCRIPT_ARGS_YES_NO : List PyStr := ["YES", "NO"].map String.toList

/-- `constants.py`, `RC.OK`. -/
def RC_OK : Int := 0
/-- `constants.py`, `RC.FAIL`. -/
def RC_FAIL : Int := -1
/-- `constants.py`, `RC.NO_ARGS`. -/
def RC_NO_ARGS : Int := -2

/-- Decimal digit string to a natural number (helper for `pyInt`). -/
def digitsToNat (s : PyStr) : Option Nat :=
  if s = [] then none
  else if s.all (fun c => c.isDigit) then
    some (s.foldl (fun a c => a * 10 + (c.toNat - ('0').toNat)) 0)
  else none

/-- CPython `int(s, 10)` on an optional sign followed by decimal digits
(see the fidelity note in the header). -/
def pyInt (s : PyStr) : Option Int :=
  match s with
  | '+' :: rest => (digitsToNat rest).map (fun n => (n : Int))
  | '-' :: rest => (digitsToNat rest).map (fun n => -(n : Int))
  | _ => (digitsToNat s).map (fun n => (n : Int))

/-- `mqttcmdscript.py` `is_int`: `int(s, base)` succeeds (a `ValueError`
is caught and yields `False`). -/
def is_int (s : PyStr) : Bool := (pyInt s).isSome

/-- The value `int(s)`; in the source every call site is guarded by
`is_int`, so the `getD` default is never reached there. -/
def int_of (s : PyStr) : Int := (pyInt s).getD 0

/-- Python `str.upper()` (the script keywords are ASCII). -/
def pyUpper (s : PyStr) : PyStr := s.map Char.toUpper

/-- Python whitespace for `str.split()` (ASCII part; the scripts in the
theorems below contain no further Unicode whitespace). -/
def isPyWs (c : Char) : Bool :=
  c = ' ' ∨ c = '\t' ∨ c = '\n' ∨ c = '\r' ∨ c = Char.ofNat 11 ∨ c = Char.ofNat 12

/-- Accumulator worker for `pySplitWs`. -/
def pySplitWsAux : List Char → List Char → List (List Char)
  | [], acc => if acc = [] then [] else [acc.reverse]
  | c :: cs, acc =>
    if isPyWs c then
      if acc = [] then pySplitWsAux cs [] else acc.reverse :: pySplitWsAux cs []
    else pySplitWsAux cs (c :: acc)

/-- Python `str.split()` with no argument: maximal runs of
non-whitespace characters, no empty tokens. -/
def pySplitWs (s : PyStr) : List PyStr := pySplitWsAux s []

/-- Python `str.split(sep)` for a one-character separator: splits at
every separator occurrence, preserving empty tokens; the result is
never empty. -/
def pySplitOn (sep : Char) : List Char → List (List Char)
  | [] => [[]]
  | c :: cs =>
    if c = sep then [] :: pySplitOn sep cs
    else
      match pySplitOn sep cs with
      | [] => [[c]]
      | t :: ts => (c :: t) :: ts

/-- Python `sep.join(parts)`. -/
def pyJoin (sep : List Char) : List (List Char) → List Char
  | [] => []
  | [t] => t
  | t :: ts => t ++ sep ++ pyJoin sep ts

/-- Python `s.replace("\r\n", "\n")` (left-to-right, non-overlapping). -/
def pyReplaceCRLF : List Char → List Char
  | [] => []
  | [c] => [c]
  | c :: d :: cs =>
    if c = '\r' ∧ d = '\n' then '\n' :: pyReplaceCRLF cs
    else c :: pyReplaceCRLF (d :: cs)

/-- `mqttcmdscript.py` class `Command`: a raw script command. -/
structure Command where
  cmd : PyStr
  args : List PyStr
deriving DecidableEq

/-- A Python runtime value stored in a compiled step's argument list:
the step-compiler pass turns `args[0]` into an `int` while the other
arguments stay strings. -/
inductive PyVal where
  | str : PyStr → PyVal
  | int : Int → PyVal
deriving DecidableEq

/-- A compiled entry of `config.steps_to_execute` (in the source these
are the same `Command` objects with mutated, heterogeneous `args`). -/
structure StepCmd where
  cmd : PyStr
  args : List PyVal
deriving DecidableEq

/-- `mqttcmdscript.py` class `ConfigSubscription` with its class-level
defaults. -/
structure ConfigSubscription where
  qos : Int := 0
  topic : PyStr := []
  logfile : PyStr := []
deriving DecidableEq

/-- `mqttcmdscript.py` class `ConfigPublishEach` with its class-level
defaults; note `time_last_pub = 0` (a number, not `None`). -/
structure ConfigPublishEach where
  each : Int := 60
  qos : Int := 0
  topic : PyStr := []
  msg : PyStr := []
  time_last_pub : Option ℚ := some 0
deriving DecidableEq

/-- `mqttcmdscript.py` class `Configuration` with its class-level
defaults. -/
structure Configuration where
  invalid : Bool := false
  commands : List Command := []
  mqtt_host : PyStr := []
  mqtt_port : Int := 1883
  clean_session : Bool := true
  keepalive_s : Int := 60
  client_id : PyStr := []
  username : PyStr := []
  password : PyStr := []
  use_tls : Bool := false
  tls_cert : PyStr := []
  tls_key : PyStr := []
  subscriptions : List ConfigSubscription := []
  pub_each : List ConfigPublishEach := []
  steps_to_execute : List StepCmd := []
deriving DecidableEq

/-! ### Tokenizer (`cmdscript_parse`, lines 355-383) -/

/-- Whether the marking loop (lines 361-371) removes a checked line:
empty or `#`-comment lines, and lines whose first whitespace token is
not (case-sensitively) in `CMDSCRIPT_COMMANDS`. -/
def lineRm (line : PyStr) : Bool :=
  if line.length = 0 ∨ line.head? = some '#' then true
  else decide ((pySplitWs line).headD [] ∉ CMDSCRIPT_COMMANDS)

/-- Whether the marking loop logs the unexpected-command warning for a
checked line (lines 368-369): exactly the unknown-keyword case. -/
def lineWarn (line : PyStr) : Bool :=
  if line.length = 0 ∨ line.head? = some '#' then false
  else decide ((pySplitWs line).headD [] ∉ CMDSCRIPT_COMMANDS)

/-- `lines_to_rm_index` (lines 360-371): the loop runs over
`range(len(cmdscript) - 1)`, so the final element is never checked. -/
def lines_to_rm_index (lines : List PyStr) : List Nat :=
  (List.range (lines.length - 1)).filter (fun i => lineRm (lines.getD i []))

/-- Number of unexpected-command warnings logged by the marking loop. -/
def numWarnings (lines : List PyStr) : Nat :=
  ((List.range (lines.length - 1)).filter (fun i => lineWarn (lines.getD i []))).length

/-- The deletion loop (lines 372-376): `del cmdscript[i - removed]`
with `removed` incremented after each deletion. -/
def delAsc {α : Type} : List α → Nat → List Nat → List α
  | cs, _, [] => cs
  | cs, r, i :: is => delAsc (cs.eraseIdx (i - r)) (r + 1) is

/-- Lines surviving the marking and deletion loops. -/
def remove_marked (lines : List PyStr) : List PyStr :=
  delAsc lines 0 (lines_to_rm_index lines)

/-- Lines 378-383: build a `Command` from a retained line.  `split(" ")`
never returns an empty list, so the `headD` default is unreachable
(`words[0]` in the source). -/
def line_to_command (cmd_line : PyStr) : Command :=
  let words := pySplitOn ' ' cmd_line
  { cmd := pyUpper (words.headD []), args := words.tail }

/-! ### Configuration Builder pass (`cmdscript_parse`, lines 385-494) -/

/-- The quoted-message shape check used for `CFG_PUB_EACH` (line 457)
and `PUB` (line 510):
`(len(msg) < 3) or (msg[0] != '"') or (msg[-1] != '"')`. -/
def msgQuoteBad (msg : PyStr) : Bool :=
  decide (msg.length < 3) || decide (msg.head? ≠ some '"') ||
    decide (msg.getLast? ≠ some '"')

/-- One iteration of the Configuration Builder loop (lines 385-494).
Every error branch sets `invalid` and `continue`s, i.e. simply returns
the updated configuration. -/
def buildCmd (cfg : Configuration) (c : Command) : Configuration :=
  if c.cmd = "CFG_CLIENT_ID".toList then
    if c.args.length = 0 then { cfg with invalid := true }
    else { cfg with client_id := c.args.headD [] }
  else if c.cmd = "CFG_CLEAN_SESSION".toList then
    if c.args.length = 0 then { cfg with invalid := true }
    else if c.args.headD [] ∉ CMDSCRIPT_ARGS_YES_NO then { cfg with invalid := true }
    else if pyUpper (c.args.headD []) = "YES".toList then { cfg with clean_session := true }
    else if pyUpper (c.args.headD []) = "NO".toList then { cfg with clean_session := false }
    else cfg
  else if c.cmd = "CFG_KEEPALIVE".toList then
    if c.args.length = 0 then { cfg with invalid := true }
    else if !is_int (c.args.headD []) then { cfg with invalid := true }
    else { cfg with keepalive_s := int_of (c.args.headD []) }
  else if c.cmd = "CFG_USER".toList then
    if c.args.length < 2 then { cfg with invalid := true }
    else { cfg with username := c.args.headD [], password := c.args.getD 1 [] }
  else if c.cmd = "CFG_TLS_CERT".toList then
    if c.args.length < 2 then { cfg with invalid := true }
    else { cfg with tls_cert := c.args.headD [], tls_key := c.args.getD 1 [] }
  else if c.cmd = "CFG_USE_TLS".toList then
    if c.args.length = 0 then { cfg with invalid := true }
    else if c.args.headD [] ∉ CMDSCRIPT_ARGS_YES_NO then { cfg with invalid := true }
    else if pyUpper (c.args.headD []) = "YES".toList then { cfg with use_tls := true }
    else if pyUpper (c.args.headD []) = "NO".toList then { cfg with use_tls := false }
    else cfg
  else if c.cmd = "CFG_PUB_EACH".toList then
    if c.args.length < 4 then { cfg with invalid := true }
    else if !is_int (c.args.headD []) || !is_int (c.args.getD 1 []) then
      { cfg with invalid := true }
    else
      let msg := pyJoin [' '] (c.args.drop 3)
      if msgQuoteBad msg then { cfg with invalid := true }
      else
        { cfg with pub_each := cfg.pub_each ++
            [{ each := int_of (c.args.headD []), qos := int_of (c.args.getD 1 []),
               topic := c.args.getD 2 [], msg := (msg.drop 1).dropLast }] }
  else if c.cmd = "SUB".toList then
    if c.args.length < 3 then { cfg with invalid := true }
    else if !is_int (c.args.headD []) then { cfg with invalid := true }
    else
      { cfg with subscriptions := cfg.subscriptions ++
          [{ qos := int_of (c.args.headD []), topic := c.args.getD 1 [],
             logfile := c.args.getD 2 [] }] }
  else if c.cmd = "CONNECT".toList then
    if c.args.length < 2 then { cfg with invalid := true }
    else if !is_int (c.args.getD 1 []) then { cfg with invalid := true }
    else { cfg with mqtt_host := c.args.headD [], mqtt_port := int_of (c.args.getD 1 []) }
  else cfg

/-- The full Configuration Builder pass: a plain fold, since every
error path `continue`s. -/
def buildPass (cfg : Configuration) (cs : List Command) : Configuration :=
  cs.foldl buildCmd cfg

/-! ### Step Compiler pass (`cmdscript_parse`, lines 495-531) -/

/-- One iteration of the Step Compiler loop; the second component is
`true` iff the loop executed `break` on this command. -/
def stepOne (cfg : Configuration) (c : Command) : Configuration × Bool :=
  let cfg1 :=
    if c.cmd = "DISCONNECT".toList then
      { cfg with steps_to_execute := cfg.steps_to_execute ++
          [{ cmd := c.cmd, args := c.args.map PyVal.str }] }
    else cfg
  if c.cmd = "PUB".toList then
    if c.args.length < 3 then ({ cfg1 with invalid := true }, true)
    else if !is_int (c.args.headD []) then ({ cfg1 with invalid := true }, true)
    else
      let msg := pyJoin [' '] (c.args.drop 2)
      if msgQuoteBad msg then ({ cfg1 with invalid := true }, true)
      else
        ({ cfg1 with steps_to_execute := cfg1.steps_to_execute ++
            [{ cmd := c.cmd,
               args := [PyVal.int (int_of (c.args.headD [])),
                        PyVal.str (c.args.getD 1 []),
                        PyVal.str ((msg.drop 1).dropLast)] }] }, false)
  else if c.cmd = "DELAY".toList ∨ c.cmd = "DELAY_MS".toList ∨ c.cmd = "DELAY_H".toList then
    if c.args.length = 0 then ({ cfg1 with invalid := true }, true)
    else if !is_int (c.args.headD []) then ({ cfg1 with invalid := true }, true)
    else
      ({ cfg1 with steps_to_execute := cfg1.steps_to_execute ++
          [{ cmd := c.cmd,
             args := PyVal.int (int_of (c.args.headD [])) ::
                       c.args.tail.map PyVal.str }] }, false)
  else (cfg1, false)

/-- Whether the Step Compiler loop `break`s on this command (a grammar
violation of `PUB` or `DELAY`/`DELAY_MS`/`DELAY_H`). -/
def stepBreaks (c : Command) : Bool :=
  if c.cmd = "PUB".toList then
    if c.args.length < 3 then true
    else if !is_int (c.args.headD []) then true
    else msgQuoteBad (pyJoin [' '] (c.args.drop 2))
  else if c.cmd = "DELAY".toList ∨ c.cmd = "DELAY_MS".toList ∨ c.cmd = "DELAY_H".toList then
    if c.args.length = 0 then true
    else !is_int (c.args.headD [])
  else false

/-- The full Step Compiler pass: processes commands in order and stops
at the first `break`. -/
def stepPass (cfg : Configuration) : List Command → Configuration
  | [] => cfg
  | c :: cs =>
    let r := stepOne cfg c
    if r.2 then r.1 else stepPass r.1 cs

/-! ### Parse entry point (`cmdscript_parse`) -/

/-- `cmdscript_parse` from the line list on: append the tokenized
commands to the (global, shared) configuration's command list, then run
the Configuration Builder pass and the Step Compiler pass over the
whole of `config.commands`. -/
def parse_lines (cfg : Configuration) (lines : List PyStr) : Configuration :=
  let cfg1 := { cfg with commands := cfg.commands ++ (remove_marked lines).map line_to_command }
  let cfg2 := buildPass cfg1 cfg1.commands
  stepPass cfg2 cfg2.commands

/-- `cmdscript_parse(cmdscript)`: the source mutates and returns the
module-global `config`, modelled here by threading the configuration. -/
def cmdscript_parse (cfg : Configuration) (cmdscript : PyStr) : Configuration :=
  parse_lines cfg (pySplitOn '\n' (pyReplaceCRLF cmdscript))

/-! ### Interpreter (`manage_publish_each_time`, `run_step_cmd`,
`cmdscript_interpreter`) -/

/-- One entry of the `manage_publish_each_time` sweep (lines 256-266):
returns the updated entry and whether a publish fired.  If
`time_last_pub` is `None` it is first set to `time_mqtt_connected`;
the source would raise `TypeError` on the subtraction if both were
`None`, a state unreachable once connected. -/
def manage_pub_entry (now : ℚ) (time_mqtt_connected : Option ℚ)
    (p : ConfigPublishEach) : ConfigPublishEach × Bool :=
  let p1 := if p.time_last_pub = none then { p with time_last_pub := time_mqtt_connected } else p
  match p1.time_last_pub with
  | some t =>
    if now - t ≥ (p1.each : ℚ) then ({ p1 with time_last_pub := some now }, true)
    else (p1, false)
  | none => (p1, false)

/-- `manage_publish_each_time`: every entry is evaluated on every
sweep, independently (the publish itself is an external effect). -/
def manage_publish_each_time (now : ℚ) (time_mqtt_connected : Option ℚ)
    (l : List ConfigPublishEach) : List (ConfigPublishEach × Bool) :=
  l.map (manage_pub_entry now time_mqtt_connected)

/-- Result of `run_step_cmd`: completion flag (its return value), the
new `t_wait_start`, and whether `app_exit` was set. -/
structure RunRes where
  done : Bool
  t_wait : Option ℚ
  app_exit : Bool
deriving DecidableEq

/-- The `wait_t` computation of `run_step_cmd` (lines 292-296):
`DELAY_MS` divides by 1000 (true division), `DELAY_H` multiplies by
3600.  Compiled delay steps always carry an integer first argument;
on a string the source would raise `TypeError`. -/
def delay_wait_seconds (st : StepCmd) : ℚ :=
  let a0 : ℚ :=
    match st.args.headD (PyVal.int 0) with
    | PyVal.int n => (n : ℚ)
    | PyVal.str _ => 0
  if st.cmd = "DELAY_MS".toList then a0 / 1000
  else if st.cmd = "DELAY_H".toList then a0 * 3600
  else a0

/-- `run_step_cmd` (lines 269-304).  The two `time()` calls of a tick
are modelled as the same instant `now`; the broker `publish` and
`disconnect` calls are external effects. -/
def run_step_cmd (st : StepCmd) (t_wait_start : Option ℚ) (now : ℚ) : RunRes :=
  if st.cmd = "DISCONNECT".toList then ⟨true, t_wait_start, true⟩
  else if st.cmd = "PUB".toList then ⟨true, t_wait_start, false⟩
  else if st.cmd = "DELAY".toList ∨ st.cmd = "DELAY_MS".toList ∨ st.cmd = "DELAY_H".toList then
    let wait_t := delay_wait_seconds st
    let t0 := t_wait_start.getD now
    if now - t0 ≥ wait_t then ⟨true, none, false⟩
    else ⟨false, some t0, false⟩
  else ⟨false, t_wait_start, false⟩

/-- The executor's per-tick mutable state (`step`, `t_wait_start`,
`app_exit` in the source). -/
structure ExecState where
  step : Nat
  t_wait_start : Option ℚ
  app_exit : Bool
deriving DecidableEq

/-- One iteration of the `cmdscript_interpreter` polling loop (lines
326-334), restricted to the step-advancement state; the periodic
publish sweep touches only `config.pub_each` and is modelled by
`manage_publish_each_time`. -/
def interpreter_tick (steps : List StepCmd) (connected : Bool) (now : ℚ)
    (st : ExecState) : ExecState :=
  if st.app_exit then st
  else if connected then
    if st.step < steps.length then
      let r := run_step_cmd (steps.getD st.step { cmd := [], args := [] }) st.t_wait_start now
      if r.done then { step := st.step + 1, t_wait_start := r.t_wait, app_exit := st.app_exit || r.app_exit }
      else { step := st.step, t_wait_start := r.t_wait, app_exit := st.app_exit || r.app_exit }
    else st
  else st

/-! ### File reading and main (`filesrw.py`, `mqttcmdscript.py` main) -/

/-- `filesrw.file_read_all_text`: a missing file, or an exception while
opening or reading, leaves `read = ""`; otherwise the content is
returned.  The file-system outcome is modelled as `none` (missing or
unreadable) or `some content`. -/
def file_read_all_text : Option PyStr → PyStr
  | none => []
  | some content => content

/-- `main` after argument parsing (lines 564-577): read the script,
return `RC.FAIL` when the read text is empty, otherwise parse and
either fail on an invalid configuration or run the interpreter (whose
eventual return value is `RC.OK`, line 342).  The second component
records whether `cmdscript_parse` was invoked. -/
def main_after_args (file : Option PyStr) : Int × Bool :=
  let cmdscript := file_read_all_text file
  if cmdscript = [] then (RC_FAIL, false)
  else
    let cfg := cmdscript_parse {} cmdscript
    if cfg.invalid then (RC_FAIL, true) else (RC_OK, true)

end Mqttcmdscript

namespace Mqttcmdscript

/-- The module-global `config = Configuration()` in its initial state. -/
def config0 : Configuration := {}

/-- C10: for every script file whose content reads back as the empty
string — including an existing, readable, zero-byte file — main
returns `RC.FAIL = -1` before parsing begins; at this interface an
empty script file is indistinguishable from a missing or unreadable
one (both read back as `""`). -/
theorem C10_empty_script_fails_before_parse (f : Option PyStr)
    (h : file_read_all_text f = []) :
    main_after_args f = (RC_FAIL, false) ∧
    main_after_args f = main_after_args none ∧
    RC_FAIL = -1 := by
  have h1 : main_after_args f = (RC_FAIL, false) := by
    unfold main_after_args
    rw [h]
    rfl
  exact ⟨h1, h1.trans rfl, rfl⟩

/-- C10 witness: the zero-byte readable file. -/
theorem C10_empty_script_fails_before_parse_witness :
    file_read_all_text (some ([] : PyStr)) = [] ∧
    (main_after_args (some ([] : PyStr)) = (RC_FAIL, false) ∧
     main_after_args (some ([] : PyStr)) = main_after_args none ∧
     RC_FAIL = -1) :=
  ⟨rfl, C10_empty_script_fails_before_parse (some []) rfl⟩

/-- C3: refuted on the code.  After parsing `CFG_PUB_EACH 60 0 t "m"`,
`time_last_pub` is `0` (a number), not unset, so the `is None`
initialization branch of `manage_publish_each_time` is dead: on a first
sweep at `now = 1000` with the connection established at `990` (only
10 s earlier, less than the 60 s interval) the entry publishes
immediately instead of waiting one full interval. -/
theorem C3_first_periodic_publish_fires_immediately :
    (cmdscript_parse config0 "CFG_PUB_EACH 60 0 t \"m\"\n".toList).pub_each =
      [{ each := 60, qos := 0, topic := "t".toList, msg := "m".toList,
         time_last_pub := some 0 }] ∧
    ((cmdscript_parse config0 "CFG_PUB_EACH 60 0 t \"m\"\n".toList).pub_each.headD
        {}).time_last_pub ≠ none ∧
    manage_pub_entry 1000 (some 990)
        ((cmdscript_parse config0 "CFG_PUB_EACH 60 0 t \"m\"\n".toList).pub_each.headD {}) =
      ({ each := 60, qos := 0, topic := "t".toList, msg := "m".toList,
         time_last_pub := some 1000 }, true) ∧
    ¬((1000 : ℚ) - 990 ≥ 60) := by
  have h1 : (cmdscript_parse config0 "CFG_PUB_EACH 60 0 t \"m\"\n".toList).pub_each =
      [{ each := 60, qos := 0, topic := "t".toList, msg := "m".toList,
         time_last_pub := some 0 }] := by decide
  refine ⟨h1, ?_, ?_, by norm_num⟩
  · rw [h1]
    decide
  · rw [h1]
    simp [manage_pub_entry]
    norm_num

/-- C1 counterexample: `pub 0 a/b "x"` and `PUB 0 a/b "x"` do NOT
compile identically — the keyword filter compares the first token
case-sensitively against the (all-uppercase) keyword set, so the
lowercase line is dropped (only the unchecked trailing segment
survives) and compiles to no step, while the uppercase line compiles
to a `PUB` step. -/
theorem C1_keyword_case_cex :
    (cmdscript_parse config0 "pub 0 a/b \"x\"\n".toList).commands.map Command.cmd =
      [[]] ∧
    (cmdscript_parse config0 "pub 0 a/b \"x\"\n".toList).steps_to_execute = [] ∧
    (cmdscript_parse config0 "PUB 0 a/b \"x\"\n".toList).commands.map Command.cmd =
      ["PUB".toList, []] ∧
    (cmdscript_parse config0 "PUB 0 a/b \"x\"\n".toList).steps_to_execute =
      [{ cmd := "PUB".toList,
         args := [PyVal.int 0, PyVal.str "a/b".toList, PyVal.str "x".toList] }] ∧
    (cmdscript_parse config0 "pub 0 a/b \"x\"\n".toList).steps_to_execute ≠
      (cmdscript_parse config0 "PUB 0 a/b \"x\"\n".toList).steps_to_execute := by decide

/-- C2 counterexample: parsing the same script twice does not yield
equal configurations — the parse appends into the shared configuration,
so the command list doubles and the builder pass re-appends the
subscription for every `SUB` command it sees again. -/
theorem C2_parse_twice_not_equal_cex :
    (cmdscript_parse config0 "SUB 0 t f\n".toList).subscriptions.length = 1 ∧
    (cmdscript_parse config0 "SUB 0 t f\n".toList).commands.length = 2 ∧
    (cmdscript_parse (cmdscript_parse config0 "SUB 0 t f\n".toList)
        "SUB 0 t f\n".toList).subscriptions.length = 3 ∧
    (cmdscript_parse (cmdscript_parse config0 "SUB 0 t f\n".toList)
        "SUB 0 t f\n".toList).commands.length = 4 ∧
    cmdscript_parse (cmdscript_parse config0 "SUB 0 t f\n".toList) "SUB 0 t f\n".toList ≠
      cmdscript_parse config0 "SUB 0 t f\n".toList := by decide

/-- C5 counterexample: a script whose final line is a `#`-comment (no
trailing newline) — the marking loop runs over `range(len - 1)` and
never checks the last segment, so the comment line appears as a
`RawCommand` (with its keyword upper-cased to `#C`). -/
theorem C5_comment_last_line_becomes_command_cex :
    (cmdscript_parse config0 "#c".toList).commands =
      [{ cmd := "#C".toList, args := [] }] ∧
    ((cmdscript_parse config0 "#c".toList).commands.headD
        { cmd := [], args := [] }).cmd.head? = some '#' := by decide

/-- C7 counterexample: `CFG_PUB_EACH 0 0 t "m"` appends a
`PeriodicPublish` entry whose interval is `0`, which is not positive —
the builder checks only that the interval argument parses as an
integer, never its sign. -/
theorem C7_nonpositive_interval_accepted_cex :
    (cmdscript_parse config0 "CFG_PUB_EACH 0 0 t \"m\"\n".toList).pub_each.map
        ConfigPublishEach.each = [0] ∧
    ¬((0 : Int) > 0) := by decide

/-- C8 counterexample: with two spaces after the keyword,
`SUB  0 t f` is retained (the filter splits on whitespace runs) but the
emitted `RawCommand`'s arguments come from `split(" ")`, so they contain
an empty-string token and differ from the whitespace-run split. -/
theorem C8_args_single_space_split_cex :
    (cmdscript_parse config0 "SUB  0 t f\n".toList).commands.map Command.args =
      [[[], "0".toList, "t".toList, "f".toList], []] ∧
    [] ∈ [[], "0".toList, "t".toList, "f".toList] ∧
    [[], "0".toList, "t".toList, "f".toList] ≠
      (pySplitWs "SUB  0 t f".toList).tail := by decide

end Mqttcmdscript

namespace Mqttcmdscript

/-- C9: per tick of the executor loop the step index either stays or
increases by one, never exceeds the step-list length, stops advancing
once it equals the length, and once `app_exit` is set (by a
`DISCONNECT` step or a termination signal) the loop body no longer
changes the state at all. -/
theorem C9_step_index_monotone_tick (steps : List StepCmd) (connected : Bool)
    (now : ℚ) (st : ExecState) (h : st.step ≤ steps.length) :
    ((interpreter_tick steps connected now st).step = st.step ∨
      (interpreter_tick steps connected now st).step = st.step + 1) ∧
    (interpreter_tick steps connected now st).step ≤ steps.length ∧
    (st.step = steps.length → (interpreter_tick steps connected now st).step = st.step) ∧
    (st.app_exit = true → interpreter_tick steps connected now st = st) := by
  by_cases h1 : st.app_exit
  · have ht : interpreter_tick steps connected now st = st := by
      simp [interpreter_tick, h1]
    rw [ht]
    exact ⟨Or.inl rfl, h, fun _ => rfl, fun _ => rfl⟩
  · by_cases h2 : connected
    · by_cases h3 : st.step < steps.length
      · by_cases h4 :
            (run_step_cmd (steps.getD st.step { cmd := [], args := [] })
              st.t_wait_start now).done
        · have hstep : (interpreter_tick steps connected now st).step = st.step + 1 := by
            simp only [interpreter_tick]
            rw [if_neg h1, if_pos h2, if_pos h3, if_pos h4]
          refine ⟨Or.inr hstep, ?_, ?_, fun hx => absurd hx h1⟩
          · rw [hstep]
            omega
          · intro heq
            exact absurd heq (Nat.ne_of_lt h3)
        · have hstep : (interpreter_tick steps connected now st).step = st.step := by
            simp only [interpreter_tick]
            rw [if_neg h1, if_pos h2, if_pos h3, if_neg h4]
          exact ⟨Or.inl hstep, hstep ▸ h, fun _ => hstep, fun hx => absurd hx h1⟩
      · have ht : interpreter_tick steps connected now st = st := by
          simp [interpreter_tick, h1, h2, h3]
        rw [ht]
        exact ⟨Or.inl rfl, h, fun _ => rfl, fun _ => rfl⟩
    · have ht : interpreter_tick steps connected now st = st := by
        simp [interpreter_tick, h1, h2]
      rw [ht]
      exact ⟨Or.inl rfl, h, fun _ => rfl, fun _ => rfl⟩

/-- C9 witness: one tick on a singleton `PUB` step list from step 0. -/
theorem C9_step_index_monotone_tick_witness :
    (0 : Nat) ≤ 1 ∧
    (((interpreter_tick [{ cmd := "PUB".toList, args := [] }] true 0
          { step := 0, t_wait_start := none, app_exit := false }).step = 0 ∨
      (interpreter_tick [{ cmd := "PUB".toList, args := [] }] true 0
          { step := 0, t_wait_start := none, app_exit := false }).step = 0 + 1) ∧
     (interpreter_tick [{ cmd := "PUB".toList, args := [] }] true 0
          { step := 0, t_wait_start := none, app_exit := false }).step ≤ 1 ∧
     ((0 : Nat) = 1 →
       (interpreter_tick [{ cmd := "PUB".toList, args := [] }] true 0
          { step := 0, t_wait_start := none, app_exit := false }).step = 0) ∧
     (false = true →
       interpreter_tick [{ cmd := "PUB".toList, args := [] }] true 0
          { step := 0, t_wait_start := none, app_exit := false } =
        { step := 0, t_wait_start := none, app_exit := false })) :=
  ⟨by decide,
   C9_step_index_monotone_tick [{ cmd := "PUB".toList, args := [] }] true 0
     { step := 0, t_wait_start := none, app_exit := false } (by decide)⟩

end Mqttcmdscript

namespace Mqttcmdscript

/-- Helper: `stepPass` on a single command returns the `stepOne` result
whether or not it broke. -/
theorem stepPass_singleton (cfg : Configuration) (c : Command) :
    stepPass cfg [c] = (stepOne cfg c).1 := by
  show (let r := stepOne cfg c; if r.2 then r.1 else stepPass r.1 []) = (stepOne cfg c).1
  by_cases hb : (stepOne cfg c).2 <;> simp [hb, stepPass]

/-- Helper: `stepOne` on a well-formed one-argument delay command
appends the compiled step (with `args[0]` now an `int`) and does not
break. -/
theorem stepOne_delay_ok (cfg : Configuration) (kw s : PyStr) (n : Int)
    (hkw : kw = "DELAY".toList ∨ kw = "DELAY_MS".toList ∨ kw = "DELAY_H".toList)
    (h : pyInt s = some n) :
    stepOne cfg { cmd := kw, args := [s] } =
      ({ cfg with steps_to_execute := cfg.steps_to_execute ++
          [{ cmd := kw, args := [PyVal.int n] }] }, false) := by
  have hi : is_int s = true := by simp [is_int, h]
  have hv : int_of s = n := by simp [int_of, h]
  rcases hkw with h1 | h1 | h1 <;> subst h1 <;> simp [stepOne, hi, hv]

end Mqttcmdscript

namespace Mqttcmdscript

/-- C6: a valid `DELAY n` / `DELAY_MS n` / `DELAY_H n` command (its
argument string parsing as the integer `n`) compiles to a delay step
carrying `n`, and executing that step with a pending wait started at
`t0` completes exactly when the elapsed time reaches `n` seconds for
`DELAY`, `n / 1000` seconds for `DELAY_MS`, and `n * 3600` seconds for
`DELAY_H`. -/
theorem C6_delay_compile_and_duration (cfg : Configuration) (s : PyStr) (n : Int)
    (t0 now : ℚ) (h : pyInt s = some n) :
    (stepPass cfg [{ cmd := "DELAY".toList, args := [s] }]).steps_to_execute =
      cfg.steps_to_execute ++ [{ cmd := "DELAY".toList, args := [PyVal.int n] }] ∧
    (stepPass cfg [{ cmd := "DELAY_MS".toList, args := [s] }]).steps_to_execute =
      cfg.steps_to_execute ++ [{ cmd := "DELAY_MS".toList, args := [PyVal.int n] }] ∧
    (stepPass cfg [{ cmd := "DELAY_H".toList, args := [s] }]).steps_to_execute =
      cfg.steps_to_execute ++ [{ cmd := "DELAY_H".toList, args := [PyVal.int n] }] ∧
    ((run_step_cmd { cmd := "DELAY".toList, args := [PyVal.int n] } (some t0) now).done = true
      ↔ now - t0 ≥ (n : ℚ)) ∧
    ((run_step_cmd { cmd := "DELAY_MS".toList, args := [PyVal.int n] } (some t0) now).done = true
      ↔ now - t0 ≥ (n : ℚ) / 1000) ∧
    ((run_step_cmd { cmd := "DELAY_H".toList, args := [PyVal.int n] } (some t0) now).done = true
      ↔ now - t0 ≥ (n : ℚ) * 3600) := by
  refine ⟨?_, ?_, ?_, ?_, ?_, ?_⟩
  · rw [stepPass_singleton, stepOne_delay_ok cfg _ s n (Or.inl rfl) h]
  · rw [stepPass_singleton, stepOne_delay_ok cfg _ s n (Or.inr (Or.inl rfl)) h]
  · rw [stepPass_singleton, stepOne_delay_ok cfg _ s n (Or.inr (Or.inr rfl)) h]
  · by_cases hc : now - t0 ≥ (n : ℚ) <;> simp [run_step_cmd, delay_wait_seconds, hc]
  · by_cases hc : now - t0 ≥ (n : ℚ) / 1000 <;>
      simp [run_step_cmd, delay_wait_seconds, hc]
  · by_cases hc : now - t0 ≥ (n : ℚ) * 3600 <;>
      simp [run_step_cmd, delay_wait_seconds, hc]

/-- C6 witness: `DELAY_MS 500` (and the other units) at `n = 500`,
`t0 = 0`, `now = 1/2`. -/
theorem C6_delay_compile_and_duration_witness :
    pyInt "500".toList = some 500 ∧
    ((stepPass config0 [{ cmd := "DELAY".toList, args := ["500".toList] }]).steps_to_execute =
        config0.steps_to_execute ++ [{ cmd := "DELAY".toList, args := [PyVal.int 500] }] ∧
     (stepPass config0 [{ cmd := "DELAY_MS".toList, args := ["500".toList] }]).steps_to_execute =
        config0.steps_to_execute ++ [{ cmd := "DELAY_MS".toList, args := [PyVal.int 500] }] ∧
     (stepPass config0 [{ cmd := "DELAY_H".toList, args := ["500".toList] }]).steps_to_execute =
        config0.steps_to_execute ++ [{ cmd := "DELAY_H".toList, args := [PyVal.int 500] }] ∧
     ((run_step_cmd { cmd := "DELAY".toList, args := [PyVal.int 500] }
          (some 0) (1 / 2)).done = true ↔ (1 : ℚ) / 2 - 0 ≥ (500 : Int)) ∧
     ((run_step_cmd { cmd := "DELAY_MS".toList, args := [PyVal.int 500] }
          (some 0) (1 / 2)).done = true ↔ (1 : ℚ) / 2 - 0 ≥ (500 : Int) / 1000) ∧
     ((run_step_cmd { cmd := "DELAY_H".toList, args := [PyVal.int 500] }
          (some 0) (1 / 2)).done = true ↔ (1 : ℚ) / 2 - 0 ≥ (500 : Int) * 3600)) :=
  ⟨by decide, C6_delay_compile_and_duration config0 "500".toList 500 0 (1 / 2) (by decide)⟩

end Mqttcmdscript

namespace Mqttcmdscript

/-- Helper: unfolding equation for `stepPass` on a cons cell. -/
theorem stepPass_cons (cfg : Configuration) (a : Command) (cs : List Command) :
    stepPass cfg (a :: cs) =
      if (stepOne cfg a).2 then (stepOne cfg a).1 else stepPass (stepOne cfg a).1 cs := rfl

/-- Helper: the `break` flag of `stepOne` is exactly `stepBreaks`,
independently of the configuration. -/
theorem stepOne_snd (cfg : Configuration) (c : Command) :
    (stepOne cfg c).2 = stepBreaks c := by
  by_cases hP : c.cmd = ['P', 'U', 'B']
  · by_cases h3 : c.args.length < 3
    · simp [stepOne, stepBreaks, hP, h3]
    · by_cases hi : is_int (c.args.head?.getD []) = true
      · by_cases hq : msgQuoteBad (pyJoin [' '] (c.args.drop 2)) = true
        · simp [stepOne, stepBreaks, hP, h3, hi, hq]
        · simp [stepOne, stepBreaks, hP, h3, hi, hq]
      · simp [stepOne, stepBreaks, hP, h3, hi]
  · by_cases hD : c.cmd = ['D', 'E', 'L', 'A', 'Y'] ∨
        c.cmd = ['D', 'E', 'L', 'A', 'Y', '_', 'M', 'S'] ∨
        c.cmd = ['D', 'E', 'L', 'A', 'Y', '_', 'H']
    · by_cases h0 : c.args.length = 0
      · simp [stepOne, stepBreaks, hP, hD, h0]
      · by_cases hi : is_int (c.args.head?.getD []) = true
        · simp [stepOne, stepBreaks, hP, hD, h0, hi]
        · simp [stepOne, stepBreaks, hP, hD, h0, hi]
    · push_neg at hD
      obtain ⟨d1, d2, d3⟩ := hD
      simp [stepOne, stepBreaks, hP, d1, d2, d3]

/-- Helper: when `stepOne` breaks it has just set `invalid`. -/
theorem stepOne_break_invalid (cfg : Configuration) (c : Command)
    (hc : stepBreaks c = true) : (stepOne cfg c).1.invalid = true := by
  by_cases hP : c.cmd = ['P', 'U', 'B']
  · by_cases h3 : c.args.length < 3
    · simp [stepOne, hP, h3]
    · by_cases hi : is_int (c.args.head?.getD []) = true
      · by_cases hq : msgQuoteBad (pyJoin [' '] (c.args.drop 2)) = true
        · simp [stepOne, hP, h3, hi, hq]
        · exact absurd hc (by simp [stepBreaks, hP, h3, hi, hq])
      · simp [stepOne, hP, h3, hi]
  · by_cases hD : c.cmd = ['D', 'E', 'L', 'A', 'Y'] ∨
        c.cmd = ['D', 'E', 'L', 'A', 'Y', '_', 'M', 'S'] ∨
        c.cmd = ['D', 'E', 'L', 'A', 'Y', '_', 'H']
    · by_cases h0 : c.args.length = 0
      · simp [stepOne, hP, hD, h0]
      · by_cases hi : is_int (c.args.head?.getD []) = true
        · exact absurd hc (by simp [stepBreaks, hP, hD, h0, hi])
        · simp [stepOne, hP, hD, h0, hi]
    · push_neg at hD
      obtain ⟨d1, d2, d3⟩ := hD
      exact absurd hc (by simp [stepBreaks, hP, d1, d2, d3])

/-- Helper: the Step Compiler pass ignores everything after its first
grammar violation and leaves `invalid` set there. -/
theorem stepPass_stops_at_first_break (cfg : Configuration) (pre : List Command)
    (c : Command) (post : List Command)
    (hpre : ∀ d ∈ pre, stepBreaks d = false) (hc : stepBreaks c = true) :
    stepPass cfg (pre ++ c :: post) = stepPass cfg (pre ++ [c]) ∧
    (stepPass cfg (pre ++ c :: post)).invalid = true := by
  induction pre generalizing cfg with
  | nil =>
    have h2 : (stepOne cfg c).2 = true := (stepOne_snd cfg c).trans hc
    constructor
    · rw [List.nil_append, List.nil_append, stepPass_cons, stepPass_cons, h2]
      rfl
    · rw [List.nil_append, stepPass_cons, h2, if_pos rfl]
      exact stepOne_break_invalid cfg c hc
  | cons d pre ih =>
    have hd : stepBreaks d = false := hpre d (List.mem_cons_self d pre)
    have h2 : (stepOne cfg d).2 = false := (stepOne_snd cfg d).trans hd
    have ihh := ih (stepOne cfg d).1 (fun x hx => hpre x (List.mem_cons_of_mem d hx))
    rw [List.cons_append, List.cons_append, stepPass_cons, stepPass_cons, h2]
    simp only [Bool.false_eq_true, if_false]
    exact ihh

/-- C4: on a raw-command list `pre ++ c :: post` whose first
step-grammar violation is `c`, the Step Compiler pass produces the
same result as if `post` were absent (it appends no further steps after
the violation) and leaves the invalid flag set, whereas the
Configuration Builder pass continues over `post` (it is a left fold
that never stops, so errors accumulate). -/
theorem C4_builder_continues_step_compiler_breaks
    (cfg cfg2 : Configuration) (pre : List Command) (c : Command) (post : List Command)
    (hpre : pre.all (fun d => !stepBreaks d) = true) (hc : stepBreaks c = true) :
    stepPass cfg (pre ++ c :: post) = stepPass cfg (pre ++ [c]) ∧
    (stepPass cfg (pre ++ c :: post)).invalid = true ∧
    buildPass cfg2 (pre ++ c :: post) = buildPass (buildPass cfg2 (pre ++ [c])) post := by
  have hpre2 : ∀ d ∈ pre, stepBreaks d = false := by
    intro d hd
    have := List.all_eq_true.mp hpre d hd
    simpa using this
  obtain ⟨e1, e2⟩ := stepPass_stops_at_first_break cfg pre c post hpre2 hc
  refine ⟨e1, e2, ?_⟩
  have hsplit : pre ++ c :: post = (pre ++ [c]) ++ post := by simp
  rw [hsplit]
  simp [buildPass, List.foldl_append]

/-- C4 witness: `DISCONNECT`, then the violating `DELAY abc`, then a
well-formed `DELAY 5` that the Step Compiler must ignore. -/
theorem C4_builder_continues_step_compiler_breaks_witness :
    ([{ cmd := "DISCONNECT".toList, args := [] }].all (fun d => !stepBreaks d) = true) ∧
    stepBreaks { cmd := "DELAY".toList, args := ["abc".toList] } = true ∧
    (stepPass config0 ([{ cmd := "DISCONNECT".toList, args := [] }] ++
        { cmd := "DELAY".toList, args := ["abc".toList] } ::
        [{ cmd := "DELAY".toList, args := ["5".toList] }]) =
      stepPass config0 ([{ cmd := "DISCONNECT".toList, args := [] }] ++
        [{ cmd := "DELAY".toList, args := ["abc".toList] }]) ∧
     (stepPass config0 ([{ cmd := "DISCONNECT".toList, args := [] }] ++
        { cmd := "DELAY".toList, args := ["abc".toList] } ::
        [{ cmd := "DELAY".toList, args := ["5".toList] }])).invalid = true ∧
     buildPass config0 ([{ cmd := "DISCONNECT".toList, args := [] }] ++
        { cmd := "DELAY".toList, args := ["abc".toList] } ::
        [{ cmd := "DELAY".toList, args := ["5".toList] }]) =
      buildPass (buildPass config0 ([{ cmd := "DISCONNECT".toList, args := [] }] ++
        [{ cmd := "DELAY".toList, args := ["abc".toList] }]))
        [{ cmd := "DELAY".toList, args := ["5".toList] }]) :=
  ⟨by decide, by decide,
   C4_builder_continues_step_compiler_breaks config0 config0
     [{ cmd := "DISCONNECT".toList, args := [] }]
     { cmd := "DELAY".toList, args := ["abc".toList] }
     [{ cmd := "DELAY".toList, args := ["5".toList] }] (by decide) (by decide)⟩

end Mqttcmdscript

namespace Mqttcmdscript

/-- C7 (amended): a `CFG_PUB_EACH` command whose first two arguments
parse as the integers `n` and `q` and whose message is a well-formed
quoted token appends a `PeriodicPublish` entry whose interval is
exactly `n` — for every integer `n`, with no positivity check, so zero
and negative intervals are appended as-is. -/
theorem C7_pub_each_appends_parsed_interval (cfg : Configuration)
    (s0 s1 topic body : PyStr) (n q : Int)
    (h0 : pyInt s0 = some n) (h1 : pyInt s1 = some q) (hb : body ≠ []) :
    (buildPass cfg
        [{ cmd := "CFG_PUB_EACH".toList,
           args := [s0, s1, topic, '"' :: (body ++ ['"'])] }]).pub_each =
      cfg.pub_each ++
        [{ each := n, qos := q, topic := topic, msg := body,
           time_last_pub := some 0 }] := by
  have hi0 : is_int s0 = true := by simp [is_int, h0]
  have hi1 : is_int s1 = true := by simp [is_int, h1]
  have hv0 : int_of s0 = n := by simp [int_of, h0]
  have hv1 : int_of s1 = q := by simp [int_of, h1]
  have hbl : 0 < body.length := List.length_pos.mpr hb
  have hquote : msgQuoteBad ('"' :: (body ++ ['"'])) = false := by
    have hlast : ('"' :: (body ++ ['"'])).getLast? = some '"' := by
      rw [show ('"' :: (body ++ ['"'])) = ('"' :: body) ++ ['"'] by simp]
      exact List.getLast?_concat _
    simp [msgQuoteBad, hlast, List.length_append]
    omega
  have hdrop : (('"' :: (body ++ ['"'])).drop 1).dropLast = body := by
    simp
  simp [buildPass, buildCmd, hi0, hi1, hv0, hv1, hquote, hdrop, pyJoin]

/-- C7 witness: `CFG_PUB_EACH -5 0 t "m"` appends an entry with the
negative interval `-5`. -/
theorem C7_pub_each_appends_parsed_interval_witness :
    pyInt "-5".toList = some (-5) ∧ pyInt "0".toList = some 0 ∧
    ("m".toList : PyStr) ≠ [] ∧
    (buildPass config0
        [{ cmd := "CFG_PUB_EACH".toList,
           args := ["-5".toList, "0".toList, "t".toList,
                    '"' :: ("m".toList ++ ['"'])] }]).pub_each =
      config0.pub_each ++
        [{ each := -5, qos := 0, topic := "t".toList, msg := "m".toList,
           time_last_pub := some 0 }] :=
  ⟨by decide, by decide, by decide,
   C7_pub_each_appends_parsed_interval config0 "-5".toList "0".toList
     "t".toList "m".toList (-5) 0 (by decide) (by decide) (by decide)⟩

end Mqttcmdscript

namespace Mqttcmdscript

/-- Keywords whose step compilation mutates the shared `Command`
object in the source (see the fidelity note in the header). -/
def stepPassMutates (c : Command) : Bool :=
  c.cmd = "PUB".toList ∨ c.cmd = "DELAY".toList ∨
    c.cmd = "DELAY_MS".toList ∨ c.cmd = "DELAY_H".toList

/-- Helper: the Configuration Builder never touches the command list. -/
theorem buildCmd_commands (cfg : Configuration) (c : Command) :
    (buildCmd cfg c).commands = cfg.commands := by
  simp only [buildCmd, apply_ite Configuration.commands, ite_self]

/-- Helper: `buildPass` never touches the command list. -/
theorem buildPass_commands (cfg : Configuration) (cs : List Command) :
    (buildPass cfg cs).commands = cfg.commands := by
  induction cs generalizing cfg with
  | nil => rfl
  | cons c cs ih =>
    show (buildPass (buildCmd cfg c) cs).commands = cfg.commands
    rw [ih, buildCmd_commands]

/-- Helper: the Step Compiler never touches the command list. -/
theorem stepOne_commands (cfg : Configuration) (c : Command) :
    (stepOne cfg c).1.commands = cfg.commands := by
  simp only [stepOne, apply_ite Prod.fst, apply_ite Configuration.commands, ite_self]

/-- Helper: `stepPass` never touches the command list. -/
theorem stepPass_commands (cfg : Configuration) (cs : List Command) :
    (stepPass cfg cs).commands = cfg.commands := by
  induction cs generalizing cfg with
  | nil => rfl
  | cons c cs ih =>
    rw [stepPass_cons]
    by_cases hb : (stepOne cfg c).2
    · rw [if_pos hb, stepOne_commands]
    · rw [if_neg hb, ih, stepOne_commands]

/-- C2 (amended): `cmdscript_parse` appends the tokenized commands to
the shared configuration instead of resetting it, so a second parse of
the same script appends them again: the command lists accumulate and
the two parses are not equal (the hypotheses restrict to scripts on
which the source's in-place argument mutation and whitespace-only
`IndexError` cases cannot occur, so the model is faithful). -/
theorem C2_parse_accumulates_commands (cfg : Configuration) (text : PyStr)
    (hmut : (((remove_marked (pySplitOn '\n' (pyReplaceCRLF text))).map
        line_to_command).all (fun c => !stepPassMutates c)) = true)
    (hcfg : (cfg.commands.all (fun c => !stepPassMutates c)) = true)
    (hws : ((pySplitOn '\n' (pyReplaceCRLF text)).all
        (fun l => decide (l = []) || decide (l.head? = some '#') ||
          !decide (pySplitWs l = []))) = true) :
    (cmdscript_parse cfg text).commands =
      cfg.commands ++
        (remove_marked (pySplitOn '\n' (pyReplaceCRLF text))).map line_to_command ∧
    (cmdscript_parse (cmdscript_parse cfg text) text).commands =
      cfg.commands ++
        (remove_marked (pySplitOn '\n' (pyReplaceCRLF text))).map line_to_command ++
        (remove_marked (pySplitOn '\n' (pyReplaceCRLF text))).map line_to_command := by
  have hone : ∀ cfg2 : Configuration, (cmdscript_parse cfg2 text).commands =
      cfg2.commands ++
        (remove_marked (pySplitOn '\n' (pyReplaceCRLF text))).map line_to_command := by
    intro cfg2
    show (stepPass _ _).commands = _
    rw [stepPass_commands, buildPass_commands]
  exact ⟨hone cfg, by rw [hone (cmdscript_parse cfg text), hone cfg, List.append_assoc]⟩

/-- C2 witness: the `SUB 0 t f` script. -/
theorem C2_parse_accumulates_commands_witness :
    ((((remove_marked (pySplitOn '\n' (pyReplaceCRLF "SUB 0 t f\n".toList))).map
        line_to_command).all (fun c => !stepPassMutates c)) = true ∧
     ((config0.commands.all (fun c => !stepPassMutates c)) = true) ∧
     (((pySplitOn '\n' (pyReplaceCRLF "SUB 0 t f\n".toList)).all
        (fun l => decide (l = []) || decide (l.head? = some '#') ||
          !decide (pySplitWs l = []))) = true)) ∧
    ((cmdscript_parse config0 "SUB 0 t f\n".toList).commands =
      config0.commands ++
        (remove_marked (pySplitOn '\n' (pyReplaceCRLF "SUB 0 t f\n".toList))).map
          line_to_command ∧
     (cmdscript_parse (cmdscript_parse config0 "SUB 0 t f\n".toList)
        "SUB 0 t f\n".toList).commands =
      config0.commands ++
        (remove_marked (pySplitOn '\n' (pyReplaceCRLF "SUB 0 t f\n".toList))).map
          line_to_command ++
        (remove_marked (pySplitOn '\n' (pyReplaceCRLF "SUB 0 t f\n".toList))).map
          line_to_command) :=
  ⟨⟨by decide, by decide, by decide⟩,
   C2_parse_accumulates_commands config0 "SUB 0 t f\n".toList
     (by decide) (by decide) (by decide)⟩

end Mqttcmdscript

namespace Mqttcmdscript

/-- Helper: filtering a successor-shifted index list. -/
theorem filter_map_add_one (l : List Nat) (p : Nat → Bool) :
    (l.map (fun i => i + 1)).filter p =
      (l.filter (fun i => p (i + 1))).map (fun i => i + 1) := by
  induction l with
  | nil => rfl
  | cons a l ih => by_cases h : p (a + 1) = true <;> simp [h, ih]

/-- Helper: the deletion loop is invariant under shifting both the
`removed` counter and every index by one. -/
theorem delAsc_shift {α : Type} (is : List Nat) :
    ∀ (cs : List α) (r : Nat),
      delAsc cs (r + 1) (is.map (fun i => i + 1)) = delAsc cs r is := by
  induction is with
  | nil => intro cs r; rfl
  | cons i is ih =>
    intro cs r
    show delAsc (cs.eraseIdx (i + 1 - (r + 1))) (r + 1 + 1) (is.map (fun j => j + 1)) =
      delAsc (cs.eraseIdx (i - r)) (r + 1) is
    rw [Nat.add_sub_add_right]
    exact ih _ _

/-- Helper: deleting a strictly ascending list of shifted indices, all
at least `r`, from a cons cell keeps the head. -/
theorem delAsc_cons_map {α : Type} (is : List Nat) :
    ∀ (x : α) (cs : List α) (r : Nat), is.Pairwise (· < ·) → (∀ i ∈ is, r ≤ i) →
      delAsc (x :: cs) r (is.map (fun i => i + 1)) = x :: delAsc cs r is := by
  induction is with
  | nil => intro x cs r _ _; rfl
  | cons i is ih =>
    intro x cs r hp hr
    obtain ⟨hlt, hp2⟩ := List.pairwise_cons.mp hp
    have hir : r ≤ i := hr i (List.mem_cons_self i is)
    have h1 : i + 1 - r = (i - r) + 1 := by omega
    show delAsc ((x :: cs).eraseIdx (i + 1 - r)) (r + 1) (is.map (fun j => j + 1)) =
      x :: delAsc cs r (i :: is)
    rw [h1]
    have h2 : (x :: cs).eraseIdx ((i - r) + 1) = x :: cs.eraseIdx (i - r) := rfl
    rw [h2]
    have h3 := ih x (cs.eraseIdx (i - r)) (r + 1) hp2
      (fun j hj => Nat.succ_le_of_lt (Nat.lt_of_le_of_lt hir (hlt j hj)))
    rw [h3]
    rfl

/-- Helper: the mark-then-delete loop pair over the first `m` elements
is the same as filtering the kept elements of the first `m` and
appending the unchecked rest. -/
theorem delAsc_range_filter {α : Type} (q : α → Bool) (d : α) :
    ∀ (cs : List α) (m : Nat), m ≤ cs.length →
      delAsc cs 0 ((List.range m).filter (fun i => q (cs.getD i d))) =
        (cs.take m).filter (fun a => !q a) ++ cs.drop m := by
  intro cs
  induction cs with
  | nil =>
    intro m hm
    have h0 : m = 0 := Nat.le_zero.mp hm
    subst h0
    rfl
  | cons x cs ih =>
    intro m hm
    match m with
    | 0 => rfl
    | Nat.succ m =>
      have hm2 : m ≤ cs.length := by simpa using hm
      have hrange : List.range (m + 1) = 0 :: (List.range m).map (fun i => i + 1) := by
        rw [List.range_succ_eq_map]
      rw [hrange, List.filter_cons]
      have hg0 : (x :: cs).getD 0 d = x := rfl
      rw [hg0]
      have hmf : ((List.range m).map (fun i => i + 1)).filter
            (fun i => q ((x :: cs).getD i d)) =
          ((List.range m).filter (fun i => q (cs.getD i d))).map (fun i => i + 1) :=
        filter_map_add_one (List.range m) (fun i => q ((x :: cs).getD i d))
      have hpw : ((List.range m).filter (fun i => q (cs.getD i d))).Pairwise (· < ·) :=
        (List.pairwise_lt_range m).sublist (List.filter_sublist _)
      by_cases hqx : q x = true
      · rw [if_pos hqx]
        show delAsc ((x :: cs).eraseIdx (0 - 0)) (0 + 1)
            (((List.range m).map (fun i => i + 1)).filter
              (fun i => q ((x :: cs).getD i d))) = _
        rw [hmf]
        show delAsc cs (0 + 1)
            (((List.range m).filter (fun i => q (cs.getD i d))).map (fun i => i + 1)) = _
        rw [delAsc_shift, ih m hm2]
        show _ = ((x :: cs.take m).filter (fun a => !q a)) ++ cs.drop m
        rw [List.filter_cons]
        simp [hqx]
      · have hqx2 : q x = false := by simpa using hqx
        rw [if_neg (by simp [hqx2])]
        rw [hmf]
        rw [delAsc_cons_map _ x cs 0 hpw (fun i _ => Nat.zero_le i)]
        rw [ih m hm2]
        show _ = ((x :: cs.take m).filter (fun a => !q a)) ++ cs.drop m
        rw [List.filter_cons]
        simp [hqx2]

end Mqttcmdscript

namespace Mqttcmdscript

/-- Helper: counting marked indices over the checked range equals
counting the matching checked lines. -/
theorem range_filter_getD_length {α : Type} (w : α → Bool) (d : α) :
    ∀ (cs : List α) (m : Nat), m ≤ cs.length →
      ((List.range m).filter (fun i => w (cs.getD i d))).length =
        ((cs.take m).filter w).length := by
  intro cs
  induction cs with
  | nil =>
    intro m hm
    have h0 : m = 0 := Nat.le_zero.mp hm
    subst h0
    rfl
  | cons x cs ih =>
    intro m hm
    match m with
    | 0 => rfl
    | Nat.succ m =>
      have hm2 : m ≤ cs.length := by simpa using hm
      have hrange : List.range (m + 1) = 0 :: (List.range m).map (fun i => i + 1) := by
        rw [List.range_succ_eq_map]
      rw [hrange, List.filter_cons]
      have hg0 : (x :: cs).getD 0 d = x := rfl
      rw [hg0]
      have hmf : ((List.range m).map (fun i => i + 1)).filter
            (fun i => w ((x :: cs).getD i d)) =
          ((List.range m).filter (fun i => w (cs.getD i d))).map (fun i => i + 1) :=
        filter_map_add_one (List.range m) (fun i => w ((x :: cs).getD i d))
      rw [Nat.succ_eq_add_one, List.take_succ_cons, List.filter_cons]
      by_cases hwx : w x = true
      · rw [if_pos hwx, if_pos hwx, hmf, List.length_cons, List.length_map,
          ih m hm2, List.length_cons]
      · rw [if_neg hwx, if_neg hwx, hmf, List.length_map, ih m hm2]

/-- Helper (tokenizer characterization): on any line list `init ++ [x]`
the mark-then-delete loops keep exactly the checked lines that pass the
filter, and always keep the final, never-checked element `x`. -/
theorem remove_marked_eq (init : List PyStr) (x : PyStr) :
    remove_marked (init ++ [x]) = init.filter (fun l => !lineRm l) ++ [x] := by
  unfold remove_marked lines_to_rm_index
  have hlen : (init ++ [x]).length - 1 = init.length := by simp
  rw [hlen]
  rw [delAsc_range_filter lineRm [] (init ++ [x]) init.length (by simp)]
  rw [List.take_left, List.drop_left]

/-- Helper: warnings are counted over the checked region only. -/
theorem numWarnings_eq (init : List PyStr) (x : PyStr) :
    numWarnings (init ++ [x]) = (init.filter lineWarn).length := by
  unfold numWarnings
  have hlen : (init ++ [x]).length - 1 = init.length := by simp
  rw [hlen]
  rw [range_filter_getD_length lineWarn [] (init ++ [x]) init.length (by simp)]
  rw [List.take_left]

/-- Helper: a warned (unknown-keyword) line is a removed line. -/
theorem lineWarn_imp_lineRm (l : PyStr) (h : lineWarn l = true) : lineRm l = true := by
  unfold lineWarn at h
  unfold lineRm
  by_cases hc : l.length = 0 ∨ l.head? = some '#'
  · rw [if_pos hc]
  · rw [if_neg hc] at h ⊢
    exact h

end Mqttcmdscript

namespace Mqttcmdscript

/-- C5 (amended): the marking loop checks every line except the final
split segment, so: on any line list `init ++ [x]` the retained lines
are the checked lines passing the filter (empty, `#`-comment and
unknown-keyword lines among them never survive) plus the always
retained final segment `x`; inserting an unknown-keyword line `u`
anywhere in the checked region leaves the retained lines, hence the
whole parsed configuration (in particular its invalid flag), unchanged,
and produces exactly one additional warning.  (The `.all` hypotheses
restrict to Python-faithful inputs without whitespace-only checked
lines, see the header.) -/
theorem C5_checked_lines_filtered_last_unchecked
    (init : List PyStr) (x : PyStr) (pre post : List PyStr) (u : PyStr)
    (cfg : Configuration)
    (hinit : (init.all (fun l => decide (l = []) || decide (l.head? = some '#') ||
        !decide (pySplitWs l = []))) = true)
    (hprews : (pre.all (fun l => decide (l = []) || decide (l.head? = some '#') ||
        !decide (pySplitWs l = []))) = true)
    (hpostws : (post.all (fun l => decide (l = []) || decide (l.head? = some '#') ||
        !decide (pySplitWs l = []))) = true)
    (hu : lineWarn u = true) (hufst : pySplitWs u ≠ []) (hpost : post ≠ []) :
    remove_marked (init ++ [x]) = init.filter (fun l => !lineRm l) ++ [x] ∧
    remove_marked (pre ++ u :: post) = remove_marked (pre ++ post) ∧
    numWarnings (pre ++ u :: post) = numWarnings (pre ++ post) + 1 ∧
    parse_lines cfg (pre ++ u :: post) = parse_lines cfg (pre ++ post) := by
  have hRm : lineRm u = true := lineWarn_imp_lineRm u hu
  obtain ⟨y, q, hq⟩ : ∃ y q, post = q ++ [y] :=
    ⟨post.getLast hpost, post.dropLast, (List.dropLast_append_getLast hpost).symm⟩
  subst hq
  have h1 : pre ++ u :: (q ++ [y]) = (pre ++ u :: q) ++ [y] := by simp
  have h2 : pre ++ (q ++ [y]) = (pre ++ q) ++ [y] := by simp
  have e2 : remove_marked (pre ++ u :: (q ++ [y])) = remove_marked (pre ++ (q ++ [y])) := by
    rw [h1, h2, remove_marked_eq, remove_marked_eq, List.filter_append,
      List.filter_append, List.filter_cons]
    simp [hRm]
  refine ⟨remove_marked_eq init x, e2, ?_, ?_⟩
  · rw [h1, h2, numWarnings_eq, numWarnings_eq, List.filter_append,
      List.filter_append, List.filter_cons]
    simp [hu, Nat.add_assoc, Nat.add_comm]
  · unfold parse_lines
    rw [e2]

/-- C5 witness: a mixed checked region, an unknown-keyword line
`foo bar` inserted before a final `DELAY 5` line, and a comment line as
the unchecked final segment. -/
theorem C5_checked_lines_filtered_last_unchecked_witness :
    ((["SUB 0 t f".toList, [], "#z".toList].all
        (fun l => decide (l = []) || decide (l.head? = some '#') ||
          !decide (pySplitWs l = []))) = true ∧
     (["DISCONNECT".toList].all
        (fun l => decide (l = []) || decide (l.head? = some '#') ||
          !decide (pySplitWs l = []))) = true ∧
     (["DELAY 5".toList].all
        (fun l => decide (l = []) || decide (l.head? = some '#') ||
          !decide (pySplitWs l = []))) = true ∧
     lineWarn "foo bar".toList = true ∧
     pySplitWs "foo bar".toList ≠ [] ∧
     (["DELAY 5".toList] : List PyStr) ≠ []) ∧
    (remove_marked (["SUB 0 t f".toList, [], "#z".toList] ++ ["#c".toList]) =
        ["SUB 0 t f".toList, [], "#z".toList].filter (fun l => !lineRm l) ++
          ["#c".toList] ∧
     remove_marked (["DISCONNECT".toList] ++ "foo bar".toList :: ["DELAY 5".toList]) =
        remove_marked (["DISCONNECT".toList] ++ ["DELAY 5".toList]) ∧
     numWarnings (["DISCONNECT".toList] ++ "foo bar".toList :: ["DELAY 5".toList]) =
        numWarnings (["DISCONNECT".toList] ++ ["DELAY 5".toList]) + 1 ∧
     parse_lines config0 (["DISCONNECT".toList] ++ "foo bar".toList :: ["DELAY 5".toList]) =
        parse_lines config0 (["DISCONNECT".toList] ++ ["DELAY 5".toList])) :=
  ⟨⟨by decide, by decide, by decide, by decide, by decide, by decide⟩,
   C5_checked_lines_filtered_last_unchecked
     ["SUB 0 t f".toList, [], "#z".toList] "#c".toList
     ["DISCONNECT".toList] ["DELAY 5".toList] "foo bar".toList config0
     (by decide) (by decide) (by decide) (by decide) (by decide) (by decide)⟩

end Mqttcmdscript

namespace Mqttcmdscript

/-- Helper: `split(sep)` never yields the empty list. -/
theorem pySplitOn_ne_nil (sep : Char) (l : List Char) : pySplitOn sep l ≠ [] := by
  induction l with
  | nil => simp [pySplitOn]
  | cons c cs ih =>
    by_cases h : c = sep
    · simp [pySplitOn, h]
    · simp only [pySplitOn, if_neg h]
      cases hs : pySplitOn sep cs with
      | nil => simp
      | cons t ts => simp

/-- Helper: a separator-free string splits to the single token. -/
theorem pySplitOn_no_sep (sep : Char) (t : List Char) (h : ∀ c ∈ t, c ≠ sep) :
    pySplitOn sep t = [t] := by
  induction t with
  | nil => rfl
  | cons c cs ih =>
    have hc : c ≠ sep := h c (List.mem_cons_self c cs)
    have ih2 := ih (fun d hd => h d (List.mem_cons_of_mem c hd))
    simp only [pySplitOn]
    rw [if_neg hc, ih2]

/-- Helper: splitting past a separator-free prefix and one separator. -/
theorem pySplitOn_append_sep (sep : Char) (t r : List Char) (h : ∀ c ∈ t, c ≠ sep) :
    pySplitOn sep (t ++ sep :: r) = t :: pySplitOn sep r := by
  induction t with
  | nil => simp [pySplitOn]
  | cons c cs ih =>
    have hc : c ≠ sep := h c (List.mem_cons_self c cs)
    have ih2 := ih (fun d hd => h d (List.mem_cons_of_mem c hd))
    show pySplitOn sep (c :: (cs ++ sep :: r)) = (c :: cs) :: pySplitOn sep r
    simp only [pySplitOn]
    rw [if_neg hc, ih2]

/-- Helper: `split(" ")` un-does `" ".join` on separator-free tokens
(empty tokens included). -/
theorem pySplitOn_pyJoin (sep : Char) (ts : List (List Char)) (hne : ts ≠ [])
    (h : ∀ t ∈ ts, ∀ c ∈ t, c ≠ sep) :
    pySplitOn sep (pyJoin [sep] ts) = ts := by
  induction ts with
  | nil => exact absurd rfl hne
  | cons t ts ih =>
    cases ts with
    | nil => exact pySplitOn_no_sep sep t (h t (List.mem_cons_self t []))
    | cons t2 ts2 =>
      have hj : pyJoin [sep] (t :: t2 :: ts2) = t ++ sep :: pyJoin [sep] (t2 :: ts2) := by
        show (t ++ [sep]) ++ pyJoin [sep] (t2 :: ts2) = _
        simp
      rw [hj, pySplitOn_append_sep sep t _ (h t (List.mem_cons_self t (t2 :: ts2)))]
      rw [ih (List.cons_ne_nil t2 ts2)
        (fun s hs => h s (List.mem_cons_of_mem t hs))]

/-- Helper: the `split()` worker walks through a whitespace-free
prefix, accumulating it reversed. -/
theorem pySplitWsAux_no_ws (t : List Char) :
    ∀ (rest acc : List Char), (∀ c ∈ t, isPyWs c = false) →
      pySplitWsAux (t ++ rest) acc = pySplitWsAux rest (t.reverse ++ acc) := by
  induction t with
  | nil =>
    intro rest acc _
    simp
  | cons c cs ih =>
    intro rest acc h
    have hc : isPyWs c = false := h c (List.mem_cons_self c cs)
    show pySplitWsAux (c :: (cs ++ rest)) acc = _
    simp only [pySplitWsAux]
    rw [if_neg (by simp [hc])]
    rw [ih rest (c :: acc) (fun d hd => h d (List.mem_cons_of_mem c hd))]
    simp [List.append_assoc]

/-- Helper: the `split()` worker at a space with a nonempty token
accumulated emits that token. -/
theorem pySplitWsAux_space (rest acc : List Char) (hacc : acc ≠ []) :
    pySplitWsAux (' ' :: rest) acc = acc.reverse :: pySplitWsAux rest [] := by
  simp only [pySplitWsAux]
  rw [if_pos (by decide), if_neg hacc]

/-- Helper: `split()` un-does `" ".join` on nonempty whitespace-free
tokens. -/
theorem pySplitWs_pyJoin (ts : List (List Char))
    (h : ∀ t ∈ ts, t ≠ [] ∧ ∀ c ∈ t, isPyWs c = false) :
    pySplitWs (pyJoin [' '] ts) = ts := by
  induction ts with
  | nil => rfl
  | cons t ts ih =>
    obtain ⟨ht, ht2⟩ := h t (List.mem_cons_self t ts)
    cases ts with
    | nil =>
      show pySplitWsAux t [] = [t]
      have h2 := pySplitWsAux_no_ws t [] [] ht2
      rw [List.append_nil, List.append_nil] at h2
      rw [h2]
      simp only [pySplitWsAux]
      rw [if_neg (by simp [ht])]
      rw [List.reverse_reverse]
    | cons t2 ts2 =>
      have hj : pyJoin [' '] (t :: t2 :: ts2) = t ++ ' ' :: pyJoin [' '] (t2 :: ts2) := by
        show (t ++ [' ']) ++ pyJoin [' '] (t2 :: ts2) = _
        simp
      show pySplitWs (pyJoin [' '] (t :: t2 :: ts2)) = t :: t2 :: ts2
      rw [hj]
      unfold pySplitWs
      rw [pySplitWsAux_no_ws t (' ' :: pyJoin [' '] (t2 :: ts2)) [] ht2]
      rw [List.append_nil]
      rw [pySplitWsAux_space _ _ (by simp [ht])]
      rw [List.reverse_reverse]
      rw [show pySplitWsAux (pyJoin [' '] (t2 :: ts2)) [] =
        pySplitWs (pyJoin [' '] (t2 :: ts2)) from rfl]
      rw [ih (fun s hs => h s (List.mem_cons_of_mem t hs))]

end Mqttcmdscript

namespace Mqttcmdscript

/-- C8 (amended): the arguments of a retained line are its
`split(" ")` tokens after the keyword; when the line is single-space
separated (nonempty whitespace-free tokens joined by single spaces)
these coincide with the whitespace-run tokens of `split()`, and then no
empty-string token occurs — whereas runs of spaces or tabs break the
claimed coincidence (see the counterexample). -/
theorem C8_args_tokens_when_single_spaced (t0 : PyStr) (ts : List PyStr)
    (hok : ((t0 :: ts).all
      (fun t => !decide (t = []) && t.all (fun c => !isPyWs c))) = true) :
    pySplitOn ' ' (pyJoin [' '] (t0 :: ts)) = t0 :: ts ∧
    pySplitWs (pyJoin [' '] (t0 :: ts)) = t0 :: ts ∧
    (line_to_command (pyJoin [' '] (t0 :: ts))).cmd = pyUpper t0 ∧
    (line_to_command (pyJoin [' '] (t0 :: ts))).args = ts ∧
    (line_to_command (pyJoin [' '] (t0 :: ts))).args =
      (pySplitWs (pyJoin [' '] (t0 :: ts))).tail ∧
    [] ∉ (line_to_command (pyJoin [' '] (t0 :: ts))).args := by
  have hprop : ∀ t ∈ t0 :: ts, t ≠ [] ∧ ∀ c ∈ t, isPyWs c = false := by
    intro t htm
    have hall := List.all_eq_true.mp hok t htm
    rw [Bool.and_eq_true] at hall
    obtain ⟨h1, h2⟩ := hall
    constructor
    · intro he
      subst he
      simp at h1
    · intro c hcm
      have h3 := List.all_eq_true.mp h2 c hcm
      simpa using h3
  have hsep : ∀ t ∈ t0 :: ts, ∀ c ∈ t, c ≠ ' ' := by
    intro t htm c hcm he
    have h := (hprop t htm).2 c hcm
    subst he
    simp [isPyWs] at h
  have e1 : pySplitOn ' ' (pyJoin [' '] (t0 :: ts)) = t0 :: ts :=
    pySplitOn_pyJoin ' ' _ (List.cons_ne_nil _ _) hsep
  have e2 : pySplitWs (pyJoin [' '] (t0 :: ts)) = t0 :: ts := pySplitWs_pyJoin _ hprop
  have e3 : line_to_command (pyJoin [' '] (t0 :: ts)) =
      { cmd := pyUpper t0, args := ts } := by
    unfold line_to_command
    rw [e1]
    rfl
  refine ⟨e1, e2, by rw [e3], by rw [e3], by rw [e3, e2]; rfl, ?_⟩

  rw [e3]
  intro hmem
  exact (hprop [] (List.mem_cons_of_mem t0 hmem)).1 rfl

/-- C8 witness: the canonical line `SUB 0 t f`. -/
theorem C8_args_tokens_when_single_spaced_witness :
    ((("SUB".toList : PyStr) :: ["0".toList, "t".toList, "f".toList]).all
      (fun t => !decide (t = []) && t.all (fun c => !isPyWs c))) = true ∧
    (pySplitOn ' ' (pyJoin [' '] ("SUB".toList :: ["0".toList, "t".toList, "f".toList])) =
        "SUB".toList :: ["0".toList, "t".toList, "f".toList] ∧
     pySplitWs (pyJoin [' '] ("SUB".toList :: ["0".toList, "t".toList, "f".toList])) =
        "SUB".toList :: ["0".toList, "t".toList, "f".toList] ∧
     (line_to_command (pyJoin [' ']
        ("SUB".toList :: ["0".toList, "t".toList, "f".toList]))).cmd =
        pyUpper "SUB".toList ∧
     (line_to_command (pyJoin [' ']
        ("SUB".toList :: ["0".toList, "t".toList, "f".toList]))).args =
        ["0".toList, "t".toList, "f".toList] ∧
     (line_to_command (pyJoin [' ']
        ("SUB".toList :: ["0".toList, "t".toList, "f".toList]))).args =
        (pySplitWs (pyJoin [' ']
          ("SUB".toList :: ["0".toList, "t".toList, "f".toList]))).tail ∧
     [] ∉ (line_to_command (pyJoin [' ']
        ("SUB".toList :: ["0".toList, "t".toList, "f".toList]))).args) :=
  ⟨by decide,
   C8_args_tokens_when_single_spaced "SUB".toList
     ["0".toList, "t".toList, "f".toList] (by decide)⟩

end Mqttcmdscript

namespace Mqttcmdscript

/-- Helper: a CRLF-free text is unchanged by the DOS-to-UNIX rewrite. -/
theorem pyReplaceCRLF_id (l : List Char) (h : ∀ c ∈ l, c ≠ '\r') :
    pyReplaceCRLF l = l := by
  induction l with
  | nil => rfl
  | cons c cs ih =>
    cases cs with
    | nil => rfl
    | cons d cs2 =>
      have hc : c ≠ '\r' := h c (List.mem_cons_self c (d :: cs2))
      simp only [pyReplaceCRLF]
      rw [if_neg (fun hx => hc hx.1)]
      rw [ih (fun e he => h e (List.mem_cons_of_mem c he))]

/-- Helper: every character of a join comes from the separator or from
one of the tokens. -/
theorem mem_pyJoin (sep : List Char) (c : Char) :
    ∀ (ts : List (List Char)), c ∈ pyJoin sep ts →
      c ∈ sep ∨ ∃ t ∈ ts, c ∈ t := by
  intro ts
  induction ts with
  | nil => intro h; simp [pyJoin] at h
  | cons t ts ih =>
    intro hmem
    cases ts with
    | nil =>
      exact Or.inr ⟨t, List.mem_cons_self t [], hmem⟩
    | cons t2 ts2 =>
      have hj : pyJoin sep (t :: t2 :: ts2) = t ++ (sep ++ pyJoin sep (t2 :: ts2)) := by
        show (t ++ sep) ++ pyJoin sep (t2 :: ts2) = _
        simp
      rw [hj] at hmem
      rcases List.mem_append.mp hmem with h1 | h1
      · exact Or.inr ⟨t, List.mem_cons_self t (t2 :: ts2), h1⟩
      · rcases List.mem_append.mp h1 with h2 | h2
        · exact Or.inl h2
        · rcases ih h2 with h3 | ⟨s, hs, hc⟩
          · exact Or.inl h3
          · exact Or.inr ⟨s, List.mem_cons_of_mem t hs, hc⟩

/-- Helper: the parse entry point appends exactly the tokenized
commands to the configuration's command list (neither pass touches it). -/
theorem cmdscript_parse_commands (cfg : Configuration) (text : PyStr) :
    (cmdscript_parse cfg text).commands =
      cfg.commands ++
        (remove_marked (pySplitOn '\n' (pyReplaceCRLF text))).map line_to_command := by
  show (stepPass _ _).commands = _
  rw [stepPass_commands, buildPass_commands]

end Mqttcmdscript

namespace Mqttcmdscript

/-- C1 (amended): keyword filtering is case-sensitive.  For a
single-command script line built from a nonempty, non-comment,
whitespace-free keyword token and argument tokens: if the keyword is
exactly (without case folding) in the supported set, the line is
retained and its `RawCommand` keyword is the upper-cased token; if it
is not — even when only its upper-casing is — the line is dropped and
only the unchecked empty final segment remains.  The upper-casing thus
happens after the keyword check, not before it. -/
theorem C1_keyword_filter_case_sensitive (cfg : Configuration)
    (kw : PyStr) (args : List PyStr)
    (hok : ((kw :: args).all
      (fun t => !decide (t = []) && t.all (fun c => !isPyWs c))) = true)
    (hhash : kw.head? ≠ some '#') :
    (kw ∈ CMDSCRIPT_COMMANDS →
      (cmdscript_parse cfg (pyJoin [' '] (kw :: args) ++ ['\n'])).commands =
        cfg.commands ++
          [{ cmd := pyUpper kw, args := args }, { cmd := [], args := [] }]) ∧
    (kw ∉ CMDSCRIPT_COMMANDS →
      (cmdscript_parse cfg (pyJoin [' '] (kw :: args) ++ ['\n'])).commands =
        cfg.commands ++ [{ cmd := [], args := [] }]) := by
  have hprop : ∀ t ∈ kw :: args, t ≠ [] ∧ ∀ c ∈ t, isPyWs c = false := by
    intro t htm
    have hall := List.all_eq_true.mp hok t htm
    rw [Bool.and_eq_true] at hall
    obtain ⟨h1, h2⟩ := hall
    constructor
    · intro he
      subst he
      simp at h1
    · intro c hcm
      have h3 := List.all_eq_true.mp h2 c hcm
      simpa using h3
  have hkw := hprop kw (List.mem_cons_self kw args)
  have hjoinChar : ∀ c ∈ pyJoin [' '] (kw :: args), isPyWs c = false ∨ c = ' ' := by
    intro c hc
    rcases mem_pyJoin [' '] c (kw :: args) hc with h1 | ⟨t, ht, hct⟩
    · right
      simpa using h1
    · exact Or.inl ((hprop t ht).2 c hct)
  have hnoCR : ∀ c ∈ pyJoin [' '] (kw :: args) ++ ['\n'], c ≠ '\r' := by
    intro c hc he
    subst he
    rcases List.mem_append.mp hc with h1 | h1
    · rcases hjoinChar _ h1 with h2 | h2
      · simp [isPyWs] at h2
      · exact absurd h2 (by decide)
    · simp at h1
  have hnoNl : ∀ c ∈ pyJoin [' '] (kw :: args), c ≠ '\n' := by
    intro c hc he
    subst he
    rcases hjoinChar _ hc with h2 | h2
    · simp [isPyWs] at h2
    · exact absurd h2 (by decide)
  have hsplitNl : pySplitOn '\n' (pyReplaceCRLF (pyJoin [' '] (kw :: args) ++ ['\n'])) =
      [pyJoin [' '] (kw :: args), []] := by
    rw [pyReplaceCRLF_id _ hnoCR]
    rw [show pyJoin [' '] (kw :: args) ++ ['\n'] =
      pyJoin [' '] (kw :: args) ++ '\n' :: [] from rfl]
    rw [pySplitOn_append_sep '\n' _ [] hnoNl]
    rfl
  have hsep : ∀ t ∈ kw :: args, ∀ c ∈ t, c ≠ ' ' := by
    intro t htm c hcm he
    have h := (hprop t htm).2 c hcm
    subst he
    simp [isPyWs] at h
  have hsplitSp : pySplitOn ' ' (pyJoin [' '] (kw :: args)) = kw :: args :=
    pySplitOn_pyJoin ' ' _ (List.cons_ne_nil _ _) hsep
  have hlineCmd : line_to_command (pyJoin [' '] (kw :: args)) =
      { cmd := pyUpper kw, args := args } := by
    unfold line_to_command
    rw [hsplitSp]
    rfl
  have hlineHead : (pyJoin [' '] (kw :: args)).head? = kw.head? := by
    cases args with
    | nil => rfl
    | cons a as =>
      have hj : pyJoin [' '] (kw :: a :: as) = kw ++ ' ' :: pyJoin [' '] (a :: as) := by
        show (kw ++ [' ']) ++ pyJoin [' '] (a :: as) = _
        simp
      rw [hj, List.head?_append_of_ne_nil kw hkw.1]
  have hlineNe : pyJoin [' '] (kw :: args) ≠ [] := by
    intro h0
    have h1 := hlineHead
    rw [h0] at h1
    cases kw with
    | nil => exact hkw.1 rfl
    | cons k ks => simp at h1
  have hrm : lineRm (pyJoin [' '] (kw :: args)) = decide (kw ∉ CMDSCRIPT_COMMANDS) := by
    have hcond : ¬((pyJoin [' '] (kw :: args)).length = 0 ∨
        (pyJoin [' '] (kw :: args)).head? = some '#') := by
      intro hor
      rcases hor with h1 | h1
      · exact hlineNe (List.length_eq_zero.mp h1)
      · rw [hlineHead] at h1
        exact hhash h1
    unfold lineRm
    rw [if_neg hcond]
    rw [pySplitWs_pyJoin _ hprop]
    rfl
  have hcmds := cmdscript_parse_commands cfg (pyJoin [' '] (kw :: args) ++ ['\n'])
  rw [hsplitNl] at hcmds
  rw [show ([pyJoin [' '] (kw :: args), []] : List PyStr) =
    [pyJoin [' '] (kw :: args)] ++ [[]] from rfl] at hcmds
  rw [remove_marked_eq] at hcmds
  constructor
  · intro hin
    have hrmf : lineRm (pyJoin [' '] (kw :: args)) = false := by
      rw [hrm]
      simp [hin]
    have hfil : (([pyJoin [' '] (kw :: args)] : List PyStr).filter
        (fun l => !lineRm l)) = [pyJoin [' '] (kw :: args)] := by
      rw [List.filter_cons, if_pos (by simp [hrmf])]
      rfl
    rw [hcmds, hfil]
    rw [List.map_append]
    rw [show ([pyJoin [' '] (kw :: args)] : List PyStr).map line_to_command =
      [line_to_command (pyJoin [' '] (kw :: args))] from rfl]
    rw [hlineCmd]
    rfl
  · intro hout
    have hrmt : lineRm (pyJoin [' '] (kw :: args)) = true := by
      rw [hrm]
      simp [hout]
    have hfil : (([pyJoin [' '] (kw :: args)] : List PyStr).filter
        (fun l => !lineRm l)) = [] := by
      rw [List.filter_cons, if_neg (by simp [hrmt])]
      rfl
    rw [hcmds, hfil]
    rfl

end Mqttcmdscript

namespace Mqttcmdscript

/-- C1 witness: the line `SUB 0 t f` with its exactly-matching keyword. -/
theorem C1_keyword_filter_case_sensitive_witness :
    (((("SUB".toList : PyStr) :: ["0".toList, "t".toList, "f".toList]).all
        (fun t => !decide (t = []) && t.all (fun c => !isPyWs c))) = true ∧
     List.head? "SUB".toList ≠ some '#') ∧
    (("SUB".toList ∈ CMDSCRIPT_COMMANDS →
      (cmdscript_parse config0
          (pyJoin [' '] ("SUB".toList :: ["0".toList, "t".toList, "f".toList]) ++
            ['\n'])).commands =
        config0.commands ++
          [{ cmd := pyUpper "SUB".toList, args := ["0".toList, "t".toList, "f".toList] },
           { cmd := [], args := [] }]) ∧
     ("SUB".toList ∉ CMDSCRIPT_COMMANDS →
      (cmdscript_parse config0
          (pyJoin [' '] ("SUB".toList :: ["0".toList, "t".toList, "f".toList]) ++
            ['\n'])).commands =
        config0.commands ++ [{ cmd := [], args := [] }])) :=
  ⟨⟨by decide, by decide⟩,
   C1_keyword_filter_case_sensitive config0 "SUB".toList
     ["0".toList, "t".toList, "f".toList] (by decide) (by decide)⟩

end Mqttcmdscript
